import Mathlib

/-!
Verification of the Lenstra elliptic-curve factorization repository
(`Lenstra/helperFuncs.py`, `Lenstra/Point.py`, `Lenstra/EllipticCurve.py`,
`Lenstra/lenstra.py`) against its natural-language specification.

Modelling conventions.

* Python integers are `Int`.  For a positive modulus `m`, the Python percent operator agrees
  with `Int.emod` in Lean, and Python `divmod` agrees with `Int.ediv`/`Int.emod`;
  every `%` and `divmod` in the source is applied with a positive right operand
  on every reachable execution (the modulus is the integer `N > 1` being
  factored, or a positive intermediate of the Euclidean algorithm).

* The class `Point` defines no `__eq__`, so Python `==` on points is object
  identity.  We model a point as a value (`PointData`) paired with an
  allocation address (`Point.addr`); `pyEq` compares addresses.  Functions that
  allocate points (`Point.__init__`, `Point.inverse`, `__add_sumExists`)
  thread an allocation counter `c : Nat` and hand out the address `c`; the
  module-level singleton `identity` has address `0` and counters start above it.

* A Python call that does not return normally is modelled as `none`:
  - the `raise` in `generateCurvePoint`;
  - reading `.x`/`.y` of the identity point: those attributes are
    `float` infinities, and `inf % m` is `nan`, on which the loop of `extGCD`
    (`while n != 0`) never terminates;
  - the `UnboundLocalError` in `resCurveInd` when no branch assigns `res`.

* The `(exists, res)` pairs returned by the curve operations are modelled as
  `Bool × PRes`, where `PRes` is a point or an integer, matching the
  dynamically-typed `res`.
-/

namespace ECM

/-- The while-loop of `extGCD` (helperFuncs.py lines 25-33).  One Python iteration
`(q, n), m = divmod(m, n), n; prevY, y = y, prevY - q*y; prevX, x = x, prevX - q*x`
becomes one recursive call.  On every reachable call `0 ≤ n` and `0 < m`, where
`divmod` coincides with `Int.ediv`/`Int.emod`.  The structural `fuel`
argument only bounds the iteration count; `|n|` strictly decreases at every
iteration, so `extGCD` below supplies enough fuel that the base case
`fuel = 0` is never taken (`extGCDAux_fuel_irrelevant`). -/
def extGCDAux : Nat → Int → Int → Int → Int → Int → Int → Int × Int × Int
  | 0, _, m, prevX, _, prevY, _ => (prevX, prevY, m)
  | fuel + 1, n, m, prevX, x, prevY, y =>
    if n = 0 then (prevX, prevY, m)
    else
      let q := m / n
      extGCDAux fuel (m % n) n x (prevX - q * x) y (prevY - q * y)

/-- One loop iteration strictly decreases `|n|`. -/
theorem emod_natAbs_lt (m n : Int) (h : n ≠ 0) : (m % n).natAbs < n.natAbs := by
  have h1 : 0 ≤ m % n := Int.emod_nonneg m h
  have h2 : m % n < |n| := by
    rcases lt_or_le 0 n with hp | hnp
    · rw [abs_of_pos hp]
      exact Int.emod_lt_of_pos m hp
    · have hneg : n < 0 := lt_of_le_of_ne hnp h
      have e : m % n = m % (-n) := (Int.emod_neg m n).symm
      rw [abs_of_neg hneg, e]
      exact Int.emod_lt_of_pos m (by omega)
  calc (m % n).natAbs < |n|.natAbs := Int.natAbs_lt_natAbs_of_nonneg_of_lt h1 h2
    _ = n.natAbs := by rw [Int.natAbs_abs]

/-- Any fuel above `|n|` computes the same result: the loop it models needs at
most `|n| + 1` dispatches before `n = 0`. -/
theorem extGCDAux_fuel_irrelevant :
    ∀ (f g : Nat) (n m px x py y : Int), n.natAbs < f → n.natAbs < g →
    extGCDAux f n m px x py y = extGCDAux g n m px x py y := by
  intro f
  induction f with
  | zero => intro g n m px x py y hf; omega
  | succ f ih =>
    intro g n m px x py y hf hg
    match g, hg with
    | g + 1, hg =>
      by_cases h0 : n = 0
      · subst h0
        simp [extGCDAux]
      · have hlt := emod_natAbs_lt m n h0
        simp only [extGCDAux, if_neg h0]
        exact ih g (m % n) n x (px - m / n * x) y (py - m / n * y) (by omega) (by omega)

/-- Python `extGCD(n, m)` (helperFuncs.py lines 5-34): returns `(a, b, g)` with
`n*a + m*b = g = gcd(n, m)` for the inputs it is used on. -/
def extGCD (n m : Int) : Int × Int × Int :=
  extGCDAux (n.natAbs + 1) n m 0 1 1 0

/-- Python `modInv(n, m)` (helperFuncs.py lines 36-67): `n %= m`, run `extGCD`, and
return `(True, inverse)` or `(False, gcd)`. -/
def modInv (n m : Int) : Bool × Int :=
  let n1 := n % m
  let r := extGCD n1 m
  if r.2.2 ≠ 1 then (false, r.2.2) else (true, r.1 % m)

/-- Reducing the first argument of `Int.gcd` modulo the second leaves the gcd
unchanged. -/
theorem gcd_emod_left (a b : Int) : Int.gcd (a % b) b = Int.gcd a b := by
  apply Nat.dvd_antisymm
  · apply Int.natCast_dvd_natCast.mp
    apply Int.dvd_gcd
    · have hsplit : b * (a / b) + a % b = a := Int.ediv_add_emod a b
      have h1 : (Int.gcd (a % b) b : Int) ∣ a % b := Int.gcd_dvd_left
      have h2 : (Int.gcd (a % b) b : Int) ∣ b := Int.gcd_dvd_right
      calc (Int.gcd (a % b) b : Int) ∣ b * (a / b) + a % b :=
            dvd_add (Dvd.dvd.mul_right h2 _) h1
        _ = a := hsplit
    · exact Int.gcd_dvd_right
  · apply Int.natCast_dvd_natCast.mp
    apply Int.dvd_gcd
    · have hsplit : a % b = a - b * (a / b) := Int.emod_def a b
      have h1 : (Int.gcd a b : Int) ∣ a := Int.gcd_dvd_left
      have h2 : (Int.gcd a b : Int) ∣ b := Int.gcd_dvd_right
      rw [hsplit]
      exact dvd_sub h1 (Dvd.dvd.mul_right h2 _)
    · exact Int.gcd_dvd_right

/-- Loop invariant of `extGCDAux`: starting from Bezout data for `(N, M)` with
enough fuel, the returned triple `(a, b, g)` satisfies `N*a + M*b = g` and
`g = gcd N M`. -/
theorem extGCDAux_spec (N M : Int) :
    ∀ (f : Nat) (n m px x py y : Int), n.natAbs < f → 0 ≤ n → 0 < m →
    N * x + M * y = n → N * px + M * py = m →
    Int.gcd n m = Int.gcd N M →
    N * (extGCDAux f n m px x py y).1 + M * (extGCDAux f n m px x py y).2.1 =
        (extGCDAux f n m px x py y).2.2
      ∧ (extGCDAux f n m px x py y).2.2 = (Int.gcd N M : Int) := by
  intro f
  induction f with
  | zero =>
    intro n m px x py y hf
    omega
  | succ f ih =>
    intro n m px x py y hf hn hm hx hpx hgcd
    by_cases h0 : n = 0
    · subst h0
      simp only [extGCDAux, if_pos rfl]
      refine ⟨hpx, ?_⟩
      rw [← hgcd, Int.gcd_zero_left]
      exact (Int.natAbs_of_nonneg (le_of_lt hm)).symm
    · have hnpos : 0 < n := lt_of_le_of_ne hn (Ne.symm h0)
      simp only [extGCDAux, if_neg h0]
      have hlt : (m % n).natAbs < n.natAbs := emod_natAbs_lt m n h0
      apply ih (m % n) n x (px - m / n * x) y (py - m / n * y)
      · omega
      · exact Int.emod_nonneg m h0
      · exact hnpos
      · have he : m % n = m - n * (m / n) := Int.emod_def m n
        rw [he, ← hx, ← hpx]
        ring
      · exact hx
      · rw [← hgcd, gcd_emod_left m n, Int.gcd_comm]

/-- Claim C1: for all integers `n` and `m` with `m > 1`: if `gcd(n, m) = 1` then
`modInv(n, m)` returns `(True, inv)` with `0 ≤ inv < m` and `(n * inv) % m = 1`;
otherwise it returns `(False, g)` with `g = gcd(n % m, m)` and `g > 1`. -/
theorem modInv_spec (n m : Int) (hm : 1 < m) :
    (Int.gcd n m = 1 →
      (modInv n m).1 = true ∧ 0 ≤ (modInv n m).2 ∧ (modInv n m).2 < m ∧
        (n * (modInv n m).2) % m = 1) ∧
    (Int.gcd n m ≠ 1 →
      modInv n m = (false, (Int.gcd (n % m) m : Int)) ∧
        1 < (Int.gcd (n % m) m : Int)) := by
  have hm0 : 0 < m := by omega
  have hmne : m ≠ 0 := by omega
  set n1 := n % m with hn1
  have hn1nn : 0 ≤ n1 := Int.emod_nonneg n hmne
  have hspec := extGCDAux_spec n1 m (n1.natAbs + 1) n1 m 0 1 1 0 (by omega) hn1nn hm0
    (by ring) (by ring) rfl
  have hgg : Int.gcd n1 m = Int.gcd n m := gcd_emod_left n m
  obtain ⟨hbez, hgval⟩ := hspec
  constructor
  · intro h1
    have hg1 : (extGCDAux (n1.natAbs + 1) n1 m 0 1 1 0).2.2 = 1 := by
      rw [hgval, hgg, h1]; norm_num
    have hmodInv : modInv n m = (true, (extGCDAux (n1.natAbs + 1) n1 m 0 1 1 0).1 % m) := by
      unfold modInv extGCD
      rw [← hn1]
      simp [hg1]
    rw [hmodInv]
    refine ⟨rfl, Int.emod_nonneg _ hmne, Int.emod_lt_of_pos _ hm0, ?_⟩
    set A := (extGCDAux (n1.natAbs + 1) n1 m 0 1 1 0).1 with hA
    set B := (extGCDAux (n1.natAbs + 1) n1 m 0 1 1 0).2.1 with hB
    rw [hg1] at hbez
    have hmod1 : n1 * A ≡ 1 [ZMOD m] := by
      have hd : m ∣ 1 - n1 * A := ⟨B, by linarith⟩
      exact Int.modEq_iff_dvd.mpr hd
    have hmodn : n ≡ n1 [ZMOD m] := (Int.emod_emod_of_dvd n dvd_rfl).symm
    have hmodA : A % m ≡ A [ZMOD m] := Int.emod_emod_of_dvd A dvd_rfl
    have : n * (A % m) ≡ 1 [ZMOD m] := by
      calc n * (A % m) ≡ n1 * A [ZMOD m] := hmodn.mul hmodA
        _ ≡ 1 [ZMOD m] := hmod1
    have hfin : (n * (A % m)) % m = 1 % m := this
    rw [hfin]
    exact Int.emod_eq_of_lt (by norm_num) hm
  · intro hne
    have hgne : (extGCDAux (n1.natAbs + 1) n1 m 0 1 1 0).2.2 ≠ 1 := by
      rw [hgval, hgg]
      intro hc
      apply hne
      have : (Int.gcd n m : Int) = 1 := hc
      exact_mod_cast this
    have hmodInv : modInv n m = (false, (extGCDAux (n1.natAbs + 1) n1 m 0 1 1 0).2.2) := by
      unfold modInv extGCD
      rw [← hn1]
      simp [hgne]
    have hgpos : 0 < Int.gcd n1 m := by
      rcases Nat.eq_zero_or_pos (Int.gcd n1 m) with hz | hp
      · exfalso
        obtain ⟨-, h2⟩ := Int.gcd_eq_zero_iff.mp hz
        omega
      · exact hp
    have hgne1 : Int.gcd n1 m ≠ 1 := by
      rw [hgg]; exact hne
    have hgt : 1 < Int.gcd n1 m := by omega
    constructor
    · rw [hmodInv, hgval]
    · exact_mod_cast hgt

/-- Witness for C1 at `(n, m) = (3, 8)`. -/
theorem modInv_spec_witness :
    (modInv 3 8).1 = true ∧ 0 ≤ (modInv 3 8).2 ∧ (modInv 3 8).2 < 8 ∧
      (3 * (modInv 3 8).2) % 8 = 1 :=
  (modInv_spec 3 8 (by norm_num)).1 (by decide)

/-- Claim C10: for every modulus `m > 1` and every `n ≡ 0 (mod m)`,
`modInv(n, m)` returns `(False, m)`: the obstruction is the modulus itself. -/
theorem modInv_zero_mod (n m : Int) (hm : 1 < m) (h : n % m = 0) :
    modInv n m = (false, m) := by
  unfold modInv extGCD
  rw [h]
  have h1 : m ≠ 1 := by omega
  simp [extGCDAux, h1]

/-- Witness for C10 at `(n, m) = (10, 5)`. -/
theorem modInv_zero_mod_witness : modInv 10 5 = (false, 5) :=
  modInv_zero_mod 10 5 (by norm_num) (by decide)

/-- The value of a point: the point at infinity (`ID=True`, whose `x`/`y`
attributes are `float` infinities), or an affine pair with its modulus
(Point.py lines 6-29). -/
inductive PointData where
  | idp : PointData
  | aff (x y modulus : Int) : PointData
deriving DecidableEq, Repr

/-- A Python `Point` object: its value plus its allocation address.  The class
defines no `__eq__`, so `==` on points is object identity; distinct
allocations are distinct objects. -/
structure Point where
  addr : Nat
  data : PointData
deriving DecidableEq, Repr

/-- Python `P == Q` for `Point`s: default object identity. -/
def pyEq (P Q : Point) : Bool :=
  P.addr == Q.addr

/-- Python `Point(x, y, modulus)` (ID false): coordinates are reduced mod `modulus`
(Point.py line 29).  Allocates at the next address `c`. -/
def mkPoint (x y modulus : Int) (c : Nat) : Point × Nat :=
  (⟨c, .aff (x % modulus) (y % modulus) modulus⟩, c + 1)

/-- Python `Point(ID=True)`: a fresh point at infinity. -/
def mkIdPoint (c : Nat) : Point × Nat :=
  (⟨c, .idp⟩, c + 1)

/-- The module-level singleton `identity = Point(ID=True)` (Point.py line 47),
allocated at module load; we give it address `0` and start counters above it. -/
def identity : Point :=
  ⟨0, .idp⟩

/-- The `ID` attribute. -/
def Point.ID : Point → Bool
  | ⟨_, .idp⟩ => true
  | ⟨_, .aff _ _ _⟩ => false

/-- Python `Point.inverse` (Point.py lines 31-45): the additive inverse; always
allocates a fresh `Point`. -/
def Point.inverse (P : Point) (c : Nat) : Point × Nat :=
  match P.data with
  | .idp => mkIdPoint c
  | .aff x y m => mkPoint x (if y ≠ 0 then m - y else 0) m c

/-- Python `modularSlope(P, Q)` (helperFuncs.py lines 89-126).  If either operand is
the identity its coordinates are `float` infinities; `inf % m` is `nan` and
`extGCD` then spins forever on `nan != 0`, so the call never returns,
modelled as `none`.  (Callers only reach this with affine operands.) -/
def modularSlope (P Q : Point) : Option (Bool × Int) :=
  match P.data, Q.data with
  | .aff px py pm, .aff qx qy _ =>
    let dy := qy - py
    let dx := qx - px
    let r := modInv dx pm
    some (r.1, if r.1 then (dy * r.2) % pm else r.2)
  | _, _ => none

/-- Python `isCurveInd(P, Q, k)` (helperFuncs.py lines 128-141):
`(P.ID or Q.ID or P == Q.inverse) and (k in \x7b-1, 0, 1\x7d)`.  The Python `or`
short-circuits, so `Q.inverse` is only allocated when neither `ID` flag is
set; the counter is threaded accordingly. -/
def isCurveInd (P Q : Point) (k : Int) (c : Nat) : Bool × Nat :=
  if P.ID || Q.ID then ((k == -1 || k == 0 || k == 1), c)
  else
    let qi := Q.inverse c
    (pyEq P qi.1 && (k == -1 || k == 0 || k == 1), qi.2)

/-- Python `resCurveInd(P, Q, k)` (helperFuncs.py lines 143-170).  The chained
`if/elif` may leave `res` unassigned; the trailing `if P.ID: res = Q` can
still assign it.  An unassigned `res` at `return` is the Python
`UnboundLocalError`, modelled as `none`. -/
def resCurveInd (P Q : Point) (k : Int) (c : Nat) : Option Point × Nat :=
  let step :=
    if Q.ID && (k == 1) then (some P, c)
    else
      let qi := Q.inverse c
      if pyEq P qi.1 || (k == 0) then (some identity, qi.2)
      else if k == -1 then
        let pi := P.inverse qi.2
        (some pi.1, pi.2)
      else (none, qi.2)
  if P.ID then (some Q, step.2) else step

/-- Python `isSmooth(a, b, m)` (helperFuncs.py lines 73-87). -/
def isSmooth (a b m : Int) : Bool :=
  (64 * a ^ 3 + 432 * b ^ 2) % m != 0

/-- Python `factorial(n)` (helperFuncs.py lines 69-71): `1 if n in \x7b0, 1\x7d else
n * factorial(n-1)`. -/
def factorial : Nat → Nat
  | 0 => 1
  | 1 => 1
  | n + 2 => (n + 2) * factorial (n + 1)

/-- The `EC` class (EllipticCurve.py lines 9-26): coefficients reduced at
construction. -/
structure EC where
  a : Int
  b : Int
  modulus : Int
deriving DecidableEq, Repr

/-- Python `EC(a, b, modulus)`. -/
def mkEC (a b modulus : Int) : EC :=
  ⟨a % modulus, b % modulus, modulus⟩

/-- Python `EC.tangent(P)` (EllipticCurve.py lines 28-50).  On the identity point the
`float` infinity coordinates drive `extGCD` into a non-terminating loop on
`nan`, modelled as `none`. -/
def tangent (E : EC) (P : Point) : Option (Bool × Int) :=
  match P.data with
  | .idp => none
  | .aff x y _ =>
    let dx := (3 * x ^ 2 + E.a) % E.modulus
    let dy := 2 * y
    let r := modInv dy E.modulus
    some (r.1, if r.1 then (dx * r.2) % E.modulus else r.2)

/-- Python `EC.__add_sumExists(P, Q, slope)` (EllipticCurve.py lines 52-68):
allocates the sum point.  Reading `.x`/`.y` of an identity operand would be
`float` arithmetic; callers guard against it (`none`). -/
def add_sumExists (E : EC) (P Q : Point) (slope : Int) (c : Nat) : Option (Point × Nat) :=
  match P.data, Q.data with
  | .aff px py _, .aff qx qy _ =>
    let resX := slope ^ 2 - px - qx
    let resY := slope * (px - resX) - py
    some (mkPoint resX resY E.modulus c)
  | _, _ => none

/-- The result slot of the curve operations: the dynamically-typed `res`
is a `Point` on success and the obstruction integer on failure. -/
inductive PRes where
  | pt (p : Point) : PRes
  | num (g : Int) : PRes
deriving DecidableEq, Repr

/-- Python `EC.double(P)` (EllipticCurve.py lines 70-94).  `P == P.inverse` compares
object identities; `P.inverse` is freshly allocated, so the check is `False`
on every real execution and the guard falls through to the tangent. -/
def double (E : EC) (P : Point) (c : Nat) : Option (Bool × PRes × Nat) :=
  let pi := P.inverse c
  if pyEq P pi.1 then some (true, .pt identity, pi.2)
  else
    match tangent E P with
    | none => none
    | some (ex, t) =>
      if ex then
        match add_sumExists E P P t pi.2 with
        | none => none
        | some (R, c2) => some (true, .pt R, c2)
      else some (false, .num t, pi.2)

/-- Python `EC.add(P, Q)` (EllipticCurve.py lines 96-122).  `P == Q` is object
identity. -/
def add (E : EC) (P Q : Point) (c : Nat) : Option (Bool × PRes × Nat) :=
  if pyEq P Q then double E P c
  else
    let ci := isCurveInd P Q 1 c
    if ci.1 then
      match resCurveInd P Q 1 ci.2 with
      | (some R, c2) => some (true, .pt R, c2)
      | (none, _) => none
    else
      match modularSlope P Q with
      | none => none
      | some (ex, s) =>
        if ex then
          match add_sumExists E P Q s ci.2 with
          | none => none
          | some (R, c2) => some (true, .pt R, c2)
        else some (false, .num s, ci.2)

/-- Helper for `natBits`: peel binary digits, least-significant first.  The
structural `fuel` bounds the digit count; `k` at least halves each step, so
fuel `k` is enough for every `k ≥ 1`. -/
def natBitsAux : Nat → Nat → List Bool
  | 0, _ => []
  | f + 1, k => if k = 0 then [] else (k % 2 == 1) :: natBitsAux f (k / 2)

/-- The bit list `bin(k)[:1:-1]` (least-significant first).  `bin(0)[:1:-1]`
is the single digit zero; the loop only ever receives `k ≥ 2`. -/
def natBits (k : Nat) : List Bool :=
  if k = 0 then [false] else natBitsAux k k

/-- The double-and-add loop of `EC.mult` (EllipticCurve.py lines 144-154).
`exists, P = self.double(P)` stores a doubling obstruction into the loop
variable `P`; the loop then breaks (or ends) and the function returns
`(exists, res)` with the stale accumulator `res`, so the obstruction value
itself is discarded.  An early return of `(False, res)` on doubling failure
is observationally identical to the Python break at the top of the next iteration. -/
def multLoop (E : EC) (bits : List Bool) (P res : Point) (c : Nat) :
    Option (Bool × PRes × Nat) :=
  match bits with
  | [] => some (true, .pt res, c)
  | b :: rest =>
    let contDouble := fun (res' : Point) (c' : Nat) =>
      match double E P c' with
      | none => none
      | some (true, .pt P2, c1) => multLoop E rest P2 res' c1
      | some (true, .num _, _) => none
      | some (false, _, c1) => some (false, PRes.pt res', c1)
    if b then
      match add E P res c with
      | none => none
      | some (false, r, c1) => some (false, r, c1)
      | some (true, .pt res2, c1) => contDouble res2 c1
      | some (true, .num _, _) => none
    else contDouble res c

/-- Python `EC.mult` after the sign normalization (EllipticCurve.py lines 141-155):
the curve-independent fast path, else the double-and-add loop started with
`res = identity`. -/
def multCore (E : EC) (P : Point) (k : Int) (c : Nat) : Option (Bool × PRes × Nat) :=
  let ci := isCurveInd P identity k c
  if ci.1 then
    match resCurveInd P identity k ci.2 with
    | (some R, c2) => some (true, .pt R, c2)
    | (none, _) => none
  else multLoop E (natBits k.toNat) P identity ci.2

/-- Python `EC.mult(P, k)` (EllipticCurve.py lines 124-155): `if k < 0:
P, k = P.inverse, -k`, then the common body. -/
def mult (E : EC) (P : Point) (k : Int) (c : Nat) : Option (Bool × PRes × Nat) :=
  if k < 0 then
    let pi := P.inverse c
    multCore E pi.1 (-k) pi.2
  else multCore E P k c

/-- Python `generateCurvePoint(m, effort)` (lenstra.py lines 8-45).  The three
`randint(0, m-1)` draws of each attempt are read from `stream` at indices
`i`, `i+1`, `i+2`; the result carries the next stream index and allocation
counter.  `none` models the `raise` when no attempt found a smooth curve. -/
def generateCurvePoint (m : Int) (effort : Nat) (stream : Nat → Int) (i c : Nat) :
    Option (Point × EC × Nat × Nat) :=
  match effort with
  | 0 => none
  | e + 1 =>
    let s := stream i
    let t := stream (i + 1)
    let a := stream (i + 2)
    let b := (t ^ 2 - s ^ 3 - a * s) % m
    if isSmooth a b m then
      let pc := mkPoint s t m c
      some (pc.1, mkEC a b m, i + 3, pc.2)
    else generateCurvePoint m e stream (i + 3) c

/-- The search loop of `lenstraFactorial` (lenstra.py lines 69-78): while
`searching`, sample a curve/point pair and run `mult`; return `res` as soon
as a `mult` reports failure, `N` when the budget runs out.  `none` models
the exception propagated out of `generateCurvePoint`. -/
def lenstraLoop (N num : Int) (effortObs effortGen : Nat) (stream : Nat → Int)
    (i c : Nat) : Option PRes :=
  match effortObs with
  | 0 => some (.num N)
  | e + 1 =>
    match generateCurvePoint N effortGen stream i c with
    | none => none
    | some (P, curve, i2, c2) =>
      match mult curve P num c2 with
      | none => none
      | some (searching, res, c3) =>
        if searching then lenstraLoop N num e effortGen stream i2 c3
        else some res

/-- Python `lenstraFactorial(N, bound, effortObs, effortGen)` (lenstra.py
lines 47-78). -/
def lenstraFactorial (N : Int) (bound effortObs effortGen : Nat)
    (stream : Nat → Int) (i c : Nat) : Option PRes :=
  lenstraLoop N (factorial bound : Int) effortObs effortGen stream i c

/-- Random draws for the C2 failing run: `s = 1`, `t = 5`, `a = 1` (all in
`[0, 14]`, as `randint(0, 14)` can produce). -/
def stream2 : Nat → Int := fun i => if i = 0 then 1 else if i = 1 then 5 else 1

/-- Claim C2, failing run: with `N = 15`, `bound = 2`, `effortObs = 1`,
`effortGen = 1` and draws `s=1, t=5, a=1`, the sampled curve
`y² = x³ + x + 8` is smooth and contains `P = (1, 5)`; `mult(P, 2!)` hits the
obstruction `gcd(2·5, 15) = 5` inside `double`, stores it into the loop
variable `P`, and returns `(False, res)` with the stale accumulator
`res = identity`.  `lenstraFactorial` therefore returns the identity `Point`
object: not a proper divisor of 15 and not 15. -/
theorem lenstraFactorial_returns_point :
    lenstraFactorial 15 2 1 1 stream2 0 1 = some (.pt identity) := by decide

/-- Claim C3, counterexample: two separately constructed `Point(1, 2, 5)`
objects have identical data but compare unequal under the class `==`
(object identity, since no `__eq__` is defined). -/
theorem point_eq_not_structural :
    (mkPoint 1 2 5 1).1.data = (mkPoint 1 2 5 (mkPoint 1 2 5 1).2).1.data ∧
      pyEq (mkPoint 1 2 5 1).1 (mkPoint 1 2 5 (mkPoint 1 2 5 1).2).1 = false := by decide

/-- Claim C4, counterexample: `P = (1, 0)` on `y² = x³ + x + 3` over `Z/5`
satisfies `P.y = 0`, yet `double(P)` does not return `Success(identity)`:
the guard `P == P.inverse` compares object identities against a fresh
allocation and falls through to the tangent, whose `modInv(2·0, 5)` fails,
so the code returns the obstruction `(False, 5)`. -/
theorem double_self_inverse_obstruction :
    double (mkEC 1 3 5) ⟨1, .aff 1 0 5⟩ 2 = some (false, .num 5, 3) := by decide

/-- Claim C5, counterexample: `P = (1, 2)` on `y² = x³ + x + 2` over the prime
modulus 5.  `P.inverse` is the fresh object `(1, 3)`; `add(P, P.inverse)`
misses both the doubling guard and the curve-independent path (object
identity again), computes the secant slope with `Δx = 0`, and returns
`Obstruction(5)` instead of `Success(identity)`. -/
theorem add_inverse_obstruction :
    (Point.inverse ⟨1, .aff 1 2 5⟩ 2 = (⟨2, .aff 1 3 5⟩, 3)) ∧
      add (mkEC 1 2 5) ⟨1, .aff 1 2 5⟩ ⟨2, .aff 1 3 5⟩ 3 =
        some (false, .num 5, 4) := by decide

/-- Claim C7, counterexample: over the prime modulus 5, on the smooth curve
`y² = x³ + x + 1` with `P = (0, 1)` and `k1 = k2 = 2`:
`mult(P, 4)` is `Success((3, 4))`, and both `mult(P, 2)` calls are
`Success((4, 2))`, but `add` applied to those two success values returns
`Obstruction(5)`: the two values are structurally equal yet distinct
objects, so `add` skips the doubling branch and divides by `Δx ≡ 0`. -/
theorem mult_add_distributivity_fails :
    mult (mkEC 1 1 5) ⟨1, .aff 0 1 5⟩ 4 2 =
        some (true, .pt ⟨5, .aff 3 4 5⟩, 8) ∧
      mult (mkEC 1 1 5) ⟨1, .aff 0 1 5⟩ 2 2 =
        some (true, .pt ⟨3, .aff 4 2 5⟩, 6) ∧
      mult (mkEC 1 1 5) ⟨1, .aff 0 1 5⟩ 2 6 =
        some (true, .pt ⟨7, .aff 4 2 5⟩, 10) ∧
      add (mkEC 1 1 5) ⟨3, .aff 4 2 5⟩ ⟨7, .aff 4 2 5⟩ 10 =
        some (false, .num 5, 11) := by decide

/-- Forget allocation addresses in a result slot, keeping the value. -/
def resData : PRes → PointData ⊕ Int
  | .pt p => .inl p.data
  | .num g => .inr g

/-- Observation of `mult` up to allocation bookkeeping: the `(exists, res)` pair
with the value of the result. -/
def multR (E : EC) (P : Point) (k : Int) (c : Nat) :
    Option (Bool × (PointData ⊕ Int)) :=
  (mult E P k c).map (fun t => (t.1, resData t.2.1))

/-- The inverse of a point is allocated at the current counter. -/
theorem inverse_addr (Q : Point) (c : Nat) : (Q.inverse c).1.addr = c := by
  unfold Point.inverse
  cases Q.data <;> simp [mkIdPoint, mkPoint]

/-- Claim C6: for every point `P`, `mult(P, 1)` returns `Success(P)`,
`mult(P, 0)` returns `Success(identity)`, and for every `k ≥ 0`,
`mult(P, -k)` returns the same result as `mult(P.inverse, k)` (results
compared by value; both calls also consume the allocator identically from
the inversion on). -/
theorem mult_special_cases (E : EC) (P : Point) (c : Nat) (k : Int) (hk : 0 ≤ k) :
    multR E P 1 c = some (true, .inl P.data) ∧
    multR E P 0 c = some (true, .inl .idp) ∧
    multR E P (-k) c = multR E (P.inverse c).1 k (P.inverse c).2 := by
  refine ⟨?_, ?_, ?_⟩
  · obtain ⟨a, d⟩ := P
    cases d <;>
      simp [multR, mult, multCore, isCurveInd, resCurveInd, identity, Point.ID, resData]
  · obtain ⟨a, d⟩ := P
    cases d <;>
      simp [multR, mult, multCore, isCurveInd, resCurveInd, identity, Point.ID, resData,
        Point.inverse, mkIdPoint]
  · rcases lt_or_eq_of_le hk with hpos | hzero
    · have h1 : -k < 0 := by omega
      have h2 : ¬(k < 0) := by omega
      simp only [multR, mult, if_pos h1, if_neg h2, neg_neg]
    · subst hzero
      have e0 : ∀ (Q : Point) (c0 : Nat),
          multR E Q 0 c0 = some (true, .inl .idp) := by
        intro Q c0
        obtain ⟨a, d⟩ := Q
        cases d <;>
          simp [multR, mult, multCore, isCurveInd, resCurveInd, identity, Point.ID,
            resData, Point.inverse, mkIdPoint]
      rw [neg_zero, e0 P c, e0 (P.inverse c).1 (P.inverse c).2]

/-- Witness for C6 at `E = (1,1,5)`, `P = (0,1)` (address 1, counter 2),
`k = 2`. -/
theorem mult_special_cases_witness :
    multR (mkEC 1 1 5) ⟨1, .aff 0 1 5⟩ 1 2 = some (true, .inl (.aff 0 1 5)) ∧
    multR (mkEC 1 1 5) ⟨1, .aff 0 1 5⟩ 0 2 = some (true, .inl .idp) ∧
    multR (mkEC 1 1 5) ⟨1, .aff 0 1 5⟩ (-2) 2 =
      multR (mkEC 1 1 5) ((⟨1, .aff 0 1 5⟩ : Point).inverse 2).1 2
        ((⟨1, .aff 0 1 5⟩ : Point).inverse 2).2 :=
  mult_special_cases (mkEC 1 1 5) ⟨1, .aff 0 1 5⟩ 2 2 (by norm_num)

/-- Claim C9: under the preconditions established at its two call sites —
`add` invokes `resCurveInd` only when `isCurveInd(P, Q)` (with `k = 1`) held,
evaluated at a counter strictly above every live address, and `mult` invokes
it only with `Q = identity` and `k` among `-1`, `0`, `1` — `resCurveInd` always
assigns `res` before returning: the unassigned-`res` branch
(`UnboundLocalError`, modelled `none`) is unreachable, at any counter. -/
theorem resCurveInd_assigned (P Q : Point) (k : Int) (c cr : Nat)
    (hfresh : P.addr < c)
    (hcall : ((isCurveInd P Q 1 c).1 = true ∧ k = 1) ∨
      (Q = identity ∧ (k = -1 ∨ k = 0 ∨ k = 1))) :
    (resCurveInd P Q k cr).1.isSome := by
  rcases hcall with ⟨hci, hk⟩ | ⟨hQ, hk⟩
  · subst hk
    by_cases hP : P.ID
    · rw [resCurveInd]
      simp [hP]
    · by_cases hQ2 : Q.ID
      · rw [resCurveInd]
        simp [hP, hQ2]
      · exfalso
        have hPf : P.ID = false := by simpa using hP
        have hQf : Q.ID = false := by simpa using hQ2
        have haddr : pyEq P (Q.inverse c).1 = false := by
          rw [pyEq, inverse_addr]
          simp only [beq_eq_false_iff_ne, ne_eq]
          omega
        rw [isCurveInd] at hci
        rw [hPf, hQf] at hci
        simp [haddr] at hci
  · subst hQ
    have hid : identity.ID = true := rfl
    rcases hk with hk | hk | hk <;> subst hk <;> rw [resCurveInd] <;>
      by_cases hP : P.ID <;>
      by_cases hpe : pyEq P (Point.inverse identity cr).1 <;>
      simp [hP, hpe, hid]

/-- Witness for C9: the `mult` call pattern with `P = (1,2)` (address 1),
`Q = identity`, `k = 0`, counter 7. -/
theorem resCurveInd_assigned_witness :
    (resCurveInd ⟨1, .aff 1 2 5⟩ identity 0 7).1.isSome :=
  resCurveInd_assigned ⟨1, .aff 1 2 5⟩ identity 0 2 7 (by norm_num)
    (Or.inr ⟨rfl, Or.inr (Or.inl rfl)⟩)

/-- A value is congruent to its reduction mod `m`. -/
theorem modEq_reduce (z m : Int) : z % m ≡ z [ZMOD m] :=
  Int.emod_emod_of_dvd z dvd_rfl

/-- The point `(s % m, t % m)` constructed by `generateCurvePoint` lies on the
curve with reduced coefficients `a % m` and `b % m`, `b = (t² - s³ - a·s) % m`:
the construction forces `t² ≡ s³ + a·s + b (mod m)`. -/
theorem curve_construction_eq (s t a m : Int) :
    (t % m) ^ 2 % m =
      ((s % m) ^ 3 + (a % m) * (s % m) + (t ^ 2 - s ^ 3 - a * s) % m % m) % m := by
  have lhs : (t % m) ^ 2 ≡ t ^ 2 [ZMOD m] := (modEq_reduce t m).pow 2
  have rX : (s % m) ^ 3 ≡ s ^ 3 [ZMOD m] := (modEq_reduce s m).pow 3
  have rA : (a % m) * (s % m) ≡ a * s [ZMOD m] :=
    (modEq_reduce a m).mul (modEq_reduce s m)
  have rB : (t ^ 2 - s ^ 3 - a * s) % m % m ≡ t ^ 2 - s ^ 3 - a * s [ZMOD m] :=
    (modEq_reduce _ m).trans (modEq_reduce _ m)
  have h2 : (s % m) ^ 3 + (a % m) * (s % m) + (t ^ 2 - s ^ 3 - a * s) % m % m ≡
      s ^ 3 + a * s + (t ^ 2 - s ^ 3 - a * s) [ZMOD m] := (rX.add rA).add rB
  have h3 : s ^ 3 + a * s + (t ^ 2 - s ^ 3 - a * s) = t ^ 2 := by ring
  rw [h3] at h2
  exact lhs.trans h2.symm

/-- Smoothness of `(a, b)` transfers to the reduced coefficients stored in the
`EC` object. -/
theorem isSmooth_reduced (a b m : Int) (h : isSmooth a b m = true) :
    (64 * (a % m) ^ 3 + 432 * (b % m) ^ 2) % m ≠ 0 := by
  have hraw : (64 * a ^ 3 + 432 * b ^ 2) % m ≠ 0 := by
    simpa [isSmooth] using h
  have hcong : 64 * (a % m) ^ 3 + 432 * (b % m) ^ 2 ≡
      64 * a ^ 3 + 432 * b ^ 2 [ZMOD m] :=
    ((Int.ModEq.refl 64).mul ((modEq_reduce a m).pow 3)).add
      ((Int.ModEq.refl 432).mul ((modEq_reduce b m).pow 2))
  have hce : (64 * (a % m) ^ 3 + 432 * (b % m) ^ 2) % m =
      (64 * a ^ 3 + 432 * b ^ 2) % m := hcong
  rw [hce]
  exact hraw

/-- Attempt `j` of `generateCurvePoint(m, ·)` started at stream position `i`
drew an unsmooth curve: `isSmooth(a, b, m)` is false for
`s = stream (i+3j)`, `t = stream (i+3j+1)`, `a = stream (i+3j+2)` and
`b = (t² - s³ - a·s) % m`. -/
def attemptUnsmooth (m : Int) (stream : Nat → Int) (i j : Nat) : Prop :=
  isSmooth (stream (i + 3 * j + 2))
    ((stream (i + 3 * j + 1) ^ 2 - stream (i + 3 * j) ^ 3 -
      stream (i + 3 * j + 2) * stream (i + 3 * j)) % m) m = false

instance (m : Int) (stream : Nat → Int) (i j : Nat) :
    Decidable (attemptUnsmooth m stream i j) := by
  unfold attemptUnsmooth
  infer_instance

/-- Shifting the stream start by one attempt renumbers the attempts. -/
theorem attemptUnsmooth_shift (m : Int) (stream : Nat → Int) (i j : Nat) :
    attemptUnsmooth m stream (i + 3) j = attemptUnsmooth m stream i (j + 1) := by
  unfold attemptUnsmooth
  have e0 : i + 3 + 3 * j = i + 3 * (j + 1) := by ring
  rw [e0]

/-- Claim C8: `generateCurvePoint(m, effort)` either returns a pair
`(P, curve)` such that `P` lies on the curve
(`P.y² ≡ P.x³ + a·P.x + b (mod m)`) and the curve is smooth
(`64·a³ + 432·b² ≢ 0 (mod m)`), or raises; it raises exactly when none of its
at most `effort` sampling attempts produced a smooth curve, and it never
returns a curve with discriminant `≡ 0 (mod m)`. -/
theorem generateCurvePoint_spec (m : Int) (stream : Nat → Int) :
    ∀ (effort i c : Nat),
    (generateCurvePoint m effort stream i c = none ↔
      ∀ j, j < effort → attemptUnsmooth m stream i j) ∧
    (∀ P E i2 c2, generateCurvePoint m effort stream i c = some (P, E, i2, c2) →
      (∃ x y : Int, P.data = .aff x y m ∧
        y ^ 2 % m = (x ^ 3 + E.a * x + E.b) % m) ∧
      (64 * E.a ^ 3 + 432 * E.b ^ 2) % m ≠ 0) := by
  intro effort
  induction effort with
  | zero =>
    intro i c
    constructor
    · simp [generateCurvePoint]
    · intro P E i2 c2 h
      simp [generateCurvePoint] at h
  | succ e ih =>
    intro i c
    by_cases h : isSmooth (stream (i + 2))
        ((stream (i + 1) ^ 2 - stream i ^ 3 - stream (i + 2) * stream i) % m) m
    · have hgen : generateCurvePoint m (e + 1) stream i c =
          some (⟨c, .aff (stream i % m) (stream (i + 1) % m) m⟩,
            mkEC (stream (i + 2))
              ((stream (i + 1) ^ 2 - stream i ^ 3 - stream (i + 2) * stream i) % m) m,
            i + 3, c + 1) := by
        simp [generateCurvePoint, h, mkPoint]
      constructor
      · rw [hgen]
        constructor
        · intro hc
          simp at hc
        · intro hall
          exfalso
          have h0 := hall 0 (by omega)
          unfold attemptUnsmooth at h0
          norm_num at h0
          rw [h] at h0
          simp at h0
      · intro P E i2 c2 hsome
        rw [hgen] at hsome
        simp only [Option.some.injEq, Prod.mk.injEq] at hsome
        obtain ⟨hP, hE, -, -⟩ := hsome
        subst hP
        subst hE
        refine ⟨⟨stream i % m, stream (i + 1) % m, rfl, ?_⟩, ?_⟩
        · simpa [mkEC] using
            curve_construction_eq (stream i) (stream (i + 1)) (stream (i + 2)) m
        · simpa [mkEC] using
            isSmooth_reduced (stream (i + 2))
              ((stream (i + 1) ^ 2 - stream i ^ 3 - stream (i + 2) * stream i) % m) m h
    · have hgen : generateCurvePoint m (e + 1) stream i c =
          generateCurvePoint m e stream (i + 3) c := by
        simp [generateCurvePoint, h]
      obtain ⟨ihiff, ihsome⟩ := ih (i + 3) c
      constructor
      · rw [hgen, ihiff]
        constructor
        · intro hall j hj
          cases j with
          | zero =>
            unfold attemptUnsmooth
            norm_num
            simpa using h
          | succ j2 =>
            rw [← attemptUnsmooth_shift]
            exact hall j2 (by omega)
        · intro hall j hj
          rw [attemptUnsmooth_shift]
          exact hall (j + 1) (by omega)
      · rw [hgen]
        exact ihsome

/-- Witness for C8: `m = 5`, one attempt, all draws equal to 1: the sampled
curve is `y² = x³ + x + 4` over `Z/5` with `P = (1, 1)` on it. -/
theorem generateCurvePoint_spec_witness :
    (∃ x y : Int, (⟨1, PointData.aff 1 1 5⟩ : Point).data = .aff x y 5 ∧
        y ^ 2 % 5 = (x ^ 3 + (⟨1, 4, 5⟩ : EC).a * x + (⟨1, 4, 5⟩ : EC).b) % 5) ∧
      (64 * (⟨1, 4, 5⟩ : EC).a ^ 3 + 432 * (⟨1, 4, 5⟩ : EC).b ^ 2) % 5 ≠ 0 :=
  (generateCurvePoint_spec 5 (fun _ => 1) 1 0 1).2 ⟨1, .aff 1 1 5⟩ ⟨1, 4, 5⟩ 3 2
    (by decide)

end ECM
